import Mathlib

/-!
Verification of the soocii ALB log analyzer (`main.py`) against its
natural-language specification.

Python strings are modelled as `List Char` (`Str`).  Each Python helper used
by the pipeline (`str.split(sep)`, `str.strip(chars)`, `str.rstrip(chars)`,
file line iteration, `re.match` on the restricted pattern language actually
occurring in the source, `datetime.strptime` on the two fixed formats) is
given an executable Lean model, and the three pipeline components
(`LogDownloader._download_with_prefix` / `_filter_object_keys`,
`LogParser.parse`, `LogAnalyzer.stat_api_calls` / `_parse_line` /
`_identify_service` / `_normalize_url`) are translated on top of them.
Fallible Python code (uncaught `IndexError` / `ValueError` / `RuntimeError`)
is modelled with `Except`: an `Except.error` result is a run aborted by an
uncaught exception.
-/

/-- Python `str` is modelled as a list of characters. -/
abbrev Str := List Char

/-- Model of Python `text.split(sep)` for a one-character separator `sep`:
splits at every occurrence of `sep`, keeping empty pieces, and yields `[""]`
on the empty string.  Always returns a non-empty list. -/
def splitOn (sep : Char) : Str → List Str
  | [] => [[]]
  | c :: rest =>
    if c == sep then [] :: splitOn sep rest
    else
      match splitOn sep rest with
      | [] => [[c]]
      | h :: t => (c :: h) :: t

/-- Model of Python `needle in hay` (substring containment). -/
def strIn (needle : Str) : Str → Bool
  | [] => needle.isEmpty
  | c :: t => needle.isPrefixOf (c :: t) || strIn needle t

/-- Model of Python `s.lstrip(chars)`: drop leading characters that belong to
the character set `chars`. -/
def pyLstrip (chars s : Str) : Str := s.dropWhile (fun c => chars.contains c)

/-- Model of Python `s.rstrip(chars)`: drop trailing characters that belong to
the character set `chars`. -/
def pyRstrip (chars s : Str) : Str := (s.reverse.dropWhile (fun c => chars.contains c)).reverse

/-- Model of Python `s.strip(chars)`: note that `chars` is a character SET,
not a prefix/suffix string; characters from both ends that occur anywhere in
`chars` are removed. -/
def pythonStrip (chars s : Str) : Str := pyRstrip chars (pyLstrip chars s)

/-- Model of Python text-file line iteration (`for line in f`): the content is
cut after every newline character; each yielded line keeps its trailing
newline; a final piece without a newline is yielded as is; an empty final
piece is not yielded. -/
def pyReadLines (s : Str) : List Str :=
  let parts := splitOn '\n' s
  let withNl := parts.dropLast.map (fun p => p ++ ['\n'])
  match parts.getLast? with
  | some [] => withNl
  | some lastPart => withNl ++ [lastPart]
  | none => withNl

/-- Decimal rendering of a natural number (model of Python `str(n)` as
produced by `csv.writer` for the count column). -/
def natToStrAux : Nat → Nat → Str
  | 0, _ => []
  | fuel+1, n => if n < 10 then [Char.ofNat (48 + n)] else natToStrAux fuel (n / 10) ++ [Char.ofNat (48 + n % 10)]

/-- Decimal rendering of a natural number. -/
def natToStr (n : Nat) : Str := natToStrAux (n + 1) n

/-- Atoms of the restricted regular-expression language used by
`LogAnalyzer.normalize_handler`: literal characters, `\d*`, `\w*` and a
single `\w`. -/
inductive RAtom where
  | lit (c : Char)
  | digitStar
  | wordStar
  | wordOne
deriving DecidableEq

/-- Python `\w` character class (ASCII): letters, digits and underscore. -/
def isWordChar (c : Char) : Bool := c.isAlphanum || c == '_'

/-- Compile one of the source's regex literals into a list of `RAtom`.  The
twelve patterns in `LogAnalyzer.normalize_handler` use only literal
characters, backslash escapes of literal characters (`\.`), `\d*`, `\w*`
and one bare `\w`. -/
def compilePat : Str → List RAtom
  | [] => []
  | c :: rest =>
    if c == '\\' then
      match rest with
      | 'd' :: '*' :: r => .digitStar :: compilePat r
      | 'w' :: '*' :: r => .wordStar :: compilePat r
      | 'w' :: r => .wordOne :: compilePat r
      | c2 :: r => .lit c2 :: compilePat r
      | [] => []
    else .lit c :: compilePat rest

/-- Fuelled matcher for `RAtom` patterns.  `rmatchFuel fuel ps s` decides
whether `ps` matches a prefix of `s` (the semantics of Python `re.match`,
which anchors at the start and not at the end).  Each step consumes at least
one unit of the measure `ps.length + s.length`, so
`fuel = ps.length + s.length + 1` never runs out. -/
def rmatchFuel : Nat → List RAtom → Str → Bool
  | 0, _, _ => false
  | _+1, [], _ => true
  | fuel+1, .lit c :: ps, s =>
    match s with
    | [] => false
    | d :: s' => c == d && rmatchFuel fuel ps s'
  | fuel+1, .wordOne :: ps, s =>
    match s with
    | [] => false
    | d :: s' => isWordChar d && rmatchFuel fuel ps s'
  | fuel+1, .digitStar :: ps, s =>
    rmatchFuel fuel ps s ||
      (match s with
       | [] => false
       | d :: s' => d.isDigit && rmatchFuel fuel (.digitStar :: ps) s')
  | fuel+1, .wordStar :: ps, s =>
    rmatchFuel fuel ps s ||
      (match s with
       | [] => false
       | d :: s' => isWordChar d && rmatchFuel fuel (.wordStar :: ps) s')

/-- Model of `re.match(pattern, s)` truthiness for the restricted pattern
language: does `pattern` match a prefix of `s`? -/
def rmatch (ps : List RAtom) (s : Str) : Bool := rmatchFuel (ps.length + s.length + 1) ps s

/-- `True` for leap years, as Python's `datetime` validates dates. -/
def isLeapYear (y : Nat) : Bool := y % 4 == 0 && (y % 100 != 0 || y % 400 == 0)

/-- Number of days in a month, as Python's `datetime` validates dates. -/
def daysInMonth (y m : Nat) : Nat :=
  if m == 2 then (if isLeapYear y then 29 else 28)
  else if m == 4 || m == 6 || m == 9 || m == 11 then 30
  else 31

/-- Order-preserving encoding of a `datetime` value as a natural number.
Every field is below its radix (100 for the calendar/clock fields, 10^6 for
microseconds), so the encoding is ordered exactly like the tuple
(year, month, day, hour, minute, second, microsecond), which is how Python
orders `datetime` values. -/
def encodeDT (y mo d h mi sec us : Nat) : Nat :=
  (((((y * 100 + mo) * 100 + d) * 100 + h) * 100 + mi) * 100 + sec) * 1000000 + us

/-- Read exactly `n` decimal digits, with accumulator `acc`. -/
def readNAux : Nat → Nat → Str → Option (Nat × Str)
  | 0, acc, cs => some (acc, cs)
  | n+1, acc, cs =>
    match cs with
    | c :: rest => if c.isDigit then readNAux n (acc * 10 + (c.toNat - 48)) rest else none
    | [] => none

/-- Require character `c` next. -/
def expectCh (c : Char) : Str → Option Str
  | d :: rest => if c == d then some rest else none
  | [] => none

/-- Read up to `n` more decimal digits greedily, returning the accumulated
value, the number of digits consumed so far, and the rest. -/
def readFracAux : Nat → Nat → Nat → Str → (Nat × Nat × Str)
  | 0, acc, cnt, cs => (acc, cnt, cs)
  | n+1, acc, cnt, cs =>
    match cs with
    | c :: rest => if c.isDigit then readFracAux n (acc * 10 + (c.toNat - 48)) (cnt + 1) rest else (acc, cnt, cs)
    | [] => (acc, cnt, cs)

/-- Model of `datetime.strptime(s, '%Y-%m-%dT%H:%M:%S.%fZ')` (the record
timestamp format used by `LogAnalyzer._parse_line`) for zero-padded fields,
returning the `encodeDT` encoding; `none` models the `ValueError` raised on
any mismatch.  `%f` accepts 1 to 6 digits and is zero-padded on the right to
microseconds. -/
def parseRecordTs (s : Str) : Option Nat := do
  let (y, r1) ← readNAux 4 0 s
  let r2 ← expectCh '-' r1
  let (mo, r3) ← readNAux 2 0 r2
  let r4 ← expectCh '-' r3
  let (d, r5) ← readNAux 2 0 r4
  let r6 ← expectCh 'T' r5
  let (h, r7) ← readNAux 2 0 r6
  let r8 ← expectCh ':' r7
  let (mi, r9) ← readNAux 2 0 r8
  let r10 ← expectCh ':' r9
  let (sec, r11) ← readNAux 2 0 r10
  let r12 ← expectCh '.' r11
  let (usRaw, cnt, r13) := readFracAux 6 0 0 r12
  let r14 ← expectCh 'Z' r13
  if r14 = [] ∧ 1 ≤ cnt ∧ 1 ≤ mo ∧ mo ≤ 12 ∧ 1 ≤ d ∧ d ≤ daysInMonth y mo ∧ h ≤ 23 ∧ mi ≤ 59 ∧ sec ≤ 61 then
    some (encodeDT y mo d h mi sec (usRaw * 10 ^ (6 - cnt)))
  else none

/-- Model of `datetime.strptime(s, '%Y%m%dT%H%MZ')` (the timestamp format
embedded in remote object keys and local archive filenames) for zero-padded
fields, returning the `encodeDT` encoding; `none` models `ValueError`. -/
def parseKeyTsStr (s : Str) : Option Nat := do
  let (y, r1) ← readNAux 4 0 s
  let (mo, r2) ← readNAux 2 0 r1
  let (d, r3) ← readNAux 2 0 r2
  let r4 ← expectCh 'T' r3
  let (h, r5) ← readNAux 2 0 r4
  let (mi, r6) ← readNAux 2 0 r5
  let r7 ← expectCh 'Z' r6
  if r7 = [] ∧ 1 ≤ mo ∧ mo ≤ 12 ∧ 1 ≤ d ∧ d ≤ daysInMonth y mo ∧ h ≤ 23 ∧ mi ≤ 59 then
    some (encodeDT y mo d h mi 0 0)
  else none

/-- Errors raised by `LogDownloader._download_with_prefix`.  The source
raises `RuntimeError("no files be found on S3")` and
`RuntimeError("No objects matched given time period.")`; the spec names
them `NoObjectsFoundError` and `NoObjectsInRangeError`.  `keyFormatError`
models the `IndexError`/`ValueError` escaping from
`_filter_object_keys.is_valid` when a key has no `_`-separated timestamp
segment or the segment does not parse. -/
inductive DlErr where
  | noObjectsFound
  | noObjectsInRange
  | keyFormatError
deriving DecidableEq

/-- The local file name the downloader derives from a remote key:
`key.strip(prefix)` in the source, i.e. Python's character-set strip, NOT
removal of the literal prefix. -/
def keyName (pfx key : Str) : Str := pythonStrip pfx key

/-- The timestamp `_filter_object_keys.is_valid` extracts from a key:
`datetime.strptime(key.strip(prefix).split("_")[1], "%Y%m%dT%H%MZ")`.
`none` models the uncaught `IndexError` (missing segment 1) or
`ValueError` (unparsable timestamp). -/
def keyTs (pfx key : Str) : Option Nat :=
  match (splitOn '_' (keyName pfx key)).get? 1 with
  | some seg => parseKeyTsStr seg
  | none => none

/-- Model of `LogDownloader._filter_object_keys`: keep the keys whose
embedded timestamp is strictly inside the window; a key whose timestamp
cannot be extracted aborts the whole run (uncaught exception inside
`list(filter(...))`). -/
def filterKeysE (start end_ : Nat) (pfx : Str) : List Str → Except DlErr (List Str)
  | [] => .ok []
  | k :: ks =>
    match keyTs pfx k with
    | none => .error .keyFormatError
    | some t =>
      match filterKeysE start end_ pfx ks with
      | .error er => .error er
      | .ok rest => .ok (if decide (start < t) && decide (t < end_) then k :: rest else rest)

/-- Model of the download loop of `LogDownloader._download_with_prefix`.
State: `fs` is the set of file names present in the local staging folder
(as a list).  For each key, the derived name is `keyName`; when
`force_download` is off and the file exists the key is skipped and counted
in `ex`; otherwise the object is fetched (the name is added to `fs`) and
counted in `cnt`. -/
def dlLoop (force : Bool) (pfx : Str) : List Str → List Str → Nat → Nat → (List Str × Nat × Nat)
  | [], fs, cnt, ex => (fs, cnt, ex)
  | k :: ks, fs, cnt, ex =>
    if force = false ∧ keyName pfx k ∈ fs then
      dlLoop force pfx ks fs cnt (ex + 1)
    else
      dlLoop force pfx ks (if keyName pfx k ∈ fs then fs else fs ++ [keyName pfx k]) (cnt + 1) ex

/-- Model of `LogDownloader._download_with_prefix` for one listing prefix.
`keys` is the listing result (S3 omits `Contents` exactly when the listing
is empty, which the source checks with `'Contents' not in ret`); `fs` is
the set of local file names before the call.  On success it returns the
local file names after the call, the number of objects fetched, and the
number of keys skipped because their file already existed. -/
def download_one_pfx (start end_ : Nat) (force : Bool) (pfx : Str) (keys : List Str) (fs : List Str) : Except DlErr (List Str × Nat × Nat) :=
  if keys.isEmpty then .error .noObjectsFound
  else
    match filterKeysE start end_ pfx keys with
    | .error er => .error er
    | .ok valid =>
      if valid.isEmpty then .error .noObjectsInRange
      else .ok (dlLoop force pfx valid fs 0 0)

/-- Error raised by `LogParser.parse` on a short line: the spec's
`MalformedLineError`, an uncaught `IndexError` on `split[13]` (or an
earlier index) in the source. -/
inductive ParseErr where
  | malformedLine
deriving DecidableEq

/-- Model of the per-line work of `LogParser.parse`: split the line on
single spaces and write `"{split[1]} {split[12].strip('\"')} {split[13]}\n"`
to the record stream.  A line whose split has fewer than 14 fields raises
(the spec's `MalformedLineError`). -/
def parseLogLine (line : Str) : Except ParseErr Str :=
  let sp := splitOn ' ' line
  if 13 < sp.length then
    .ok (sp.getD 1 [] ++ (' ' :: (pythonStrip ['"'] (sp.getD 12 []) ++ (' ' :: (sp.getD 13 [] ++ ['\n'])))))
  else .error .malformedLine

/-- Model of `LogParser.parse` over the decompressed lines of the selected
archives: each line's condensed record is appended to the record stream;
the first failing line aborts the run with the error propagated. -/
def parseStream : List Str → Except ParseErr Str
  | [] => .ok []
  | l :: ls =>
    match parseLogLine l with
    | .error er => .error er
    | .ok rec =>
      match parseStream ls with
      | .error er => .error er
      | .ok rest => .ok (rec ++ rest)

/-- Errors escaping from `LogAnalyzer.stat_api_calls`: `unpackError` models
the `ValueError` of the three-way unpacking `log_datetime, method, url =
line.split(' ')` when the split does not have exactly three fields;
`timestampFormatError` models the `ValueError` of `datetime.strptime` on a
bad record timestamp. -/
inductive AErr where
  | unpackError
  | timestampFormatError
deriving DecidableEq

/-- Model of `LogAnalyzer._parse_line`: split the (already `'\n'`-stripped)
line on single spaces, unpack exactly three fields, and parse the first as
a record timestamp. -/
def parseLine3 (l : Str) : Except AErr (Nat × Str × Str) :=
  match splitOn ' ' l with
  | [d, m, u] =>
    match parseRecordTs d with
    | some t => .ok (t, m, u)
    | none => .error .timestampFormatError
  | _ => .error .unpackError

/-- Model of `LogAnalyzer._identify_service`: a sequence of independent
substring tests, each overwriting the previous result; the last matching
rule wins and the service defaults to the empty string. -/
def identify_service (url : Str) : Str :=
  let s0 : Str := []
  let s1 := if strIn "api/".toList url then "jarvis".toList else s0
  let s2 := if strIn "graph/v".toList url then "pepper".toList else s1
  let s3 := if strIn "recommendation/v".toList url then "vision".toList else s2
  let s4 := if strIn "search".toList url then "pym".toList else s3
  if strIn "titan".toList url then "titan".toList else s4

/-- The five substring classification rules of `_identify_service`, in
source order. -/
def serviceRules : List (Str × Str) :=
  [("api/".toList, "jarvis".toList),
   ("graph/v".toList, "pepper".toList),
   ("recommendation/v".toList, "vision".toList),
   ("search".toList, "pym".toList),
   ("titan".toList, "titan".toList)]

/-- The spec's description of classification: evaluate the fixed ordered
rule list with last-match-wins overwrite semantics, starting from the empty
string. -/
def lastMatchService (url : Str) : Str :=
  serviceRules.foldl (fun acc r => if strIn r.1 url then r.2 else acc) []

/-- The ordered table `LogAnalyzer.normalize_handler`: regex-literal
pattern (as written in the source) paired with its canonical replacement,
in source order (Python 3.7+ dicts preserve insertion order). -/
def normalize_handler : List (Str × Str) :=
  [("https://api\\.soocii\\.me:443/graph/v1\\.2/\\d*/achievements".toList,
    "https://api.soocii.me:443/graph/v1.2/<id>/achievements".toList),
   ("https://api\\.soocii\\.me:443/graph/v1\\.2/\\d*/followees/count".toList,
    "https://api.soocii.me:443/graph/v1.2/<id>/followees/count".toList),
   ("https://api\\.soocii\\.me:443/graph/v1\\.2/\\d*/followers/count".toList,
    "https://api.soocii.me:443/graph/v1.2/<id>/followers/count".toList),
   ("https://api\\.soocii\\.me:443/graph/v1\\.2/users/\\d*/followees".toList,
    "https://api.soocii.me:443/graph/v1.2/users/<id>/followees".toList),
   ("https://api\\.soocii\\.me:443/graph/v1\\.2/users/\\d*/followers".toList,
    "https://api.soocii.me:443/graph/v1.2/users/<id>/followers".toList),
   ("https://api\\.soocii\\.me:443/graph/v1\\.2/\\d*/friendship".toList,
    "https://api.soocii.me:443/graph/v1.2/<id>/friendship".toList),
   ("https://api\\.soocii\\.me:443/graph/v1\\.2/\\d*/posts".toList,
    "https://api.soocii.me:443/graph/v1.2/<id>/posts".toList),
   ("https://api\\.soocii\\.me:443/graph/v1\\.2/me/feed/\\w*-\\w*".toList,
    "https://api.soocii.me:443/graph/v1.2/me/feed/<status_id>".toList),
   ("https://api\\.soocii\\.me:443/graph/v1\\.2/\\w*-\\w*/comments".toList,
    "https://api.soocii.me:443/graph/v1.2/<status_id>/comments".toList),
   ("https://api\\.soocii\\.me:443/graph/v1\\.2/posts/\\w*-\\w*/likes".toList,
    "https://api.soocii.me:443/graph/v1.2/posts/<status_id>/likes".toList),
   ("https://api\\.soocii\\.me:443/graph/v1\\.2/\\d*/pinned-posts".toList,
    "https://api.soocii.me:443/graph/v1.2/<id>/pinned-posts".toList),
   ("https://api\\.soocii\\.me:443/graph/v1\\.2/me/posts/\\w*-\\w".toList,
    "https://api.soocii.me:443/graph/v1.2/me/posts/<status_id>".toList)]

/-- The rule loop of `LogAnalyzer._normalize_url` as written in the source:
every rule is tried in order against the CURRENT url, and a match replaces
the url (there is no break, so later rules are tested against the
replacement). -/
def seqApply : List (Str × Str) → Str → Str
  | [], url => url
  | (p, t) :: rs, url => seqApply rs (if rmatch (compilePat p) url then t else url)

/-- First-match-and-stop evaluation of an ordered rule table, as the spec
describes the normalization step. -/
def firstApply : List (Str × Str) → Str → Str
  | [], url => url
  | (p, t) :: rs, url => if rmatch (compilePat p) url then t else firstApply rs url

/-- Model of `LogAnalyzer._normalize_url`: take the part before the first
`?`, remove ALL trailing `/` characters (`url.rstrip('/')`), then run the
rule loop. -/
def normalize_url (url : Str) : Str :=
  seqApply normalize_handler (pyRstrip "/".toList ((splitOn '?' url).getD 0 []))

/-- Normalization with first-match-and-stop rule evaluation (the spec's
wording), sharing the query-string and trailing-slash preprocessing of
`normalize_url`. -/
def normalize_url_first (url : Str) : Str :=
  firstApply normalize_handler (pyRstrip "/".toList ((splitOn '?' url).getD 0 []))

/-- Modelled from the spec: removal of a SINGLE trailing `/`, as claim C2
words the slash-stripping step (`strip a single trailing /`). -/
def stripOneTrailingSlash (s : Str) : Str :=
  if s.getLast? = some '/' then s.dropLast else s

/-- Modelled from the spec: claim C2's normalization — strip the query
string, strip a single trailing slash, then apply the first matching rule
and stop. -/
def normalize_url_claim (url : Str) : Str :=
  firstApply normalize_handler (stripOneTrailingSlash ((splitOn '?' url).getD 0 []))

/-- `True` when every rule's replacement fails to match every LATER rule's
pattern.  Under this condition the source's no-break rule loop is
extensionally first-match-and-stop. -/
def noLaterMatch : List (Str × Str) → Bool
  | [] => true
  | (_, t) :: rs => rs.all (fun r => !(rmatch (compilePat r.1) t)) && noLaterMatch rs

/-- The aggregation-dictionary update of `stat_api_calls`
(`defaultdict(lambda: 0)` with `stats[key] += 1`): increment the first
entry carrying the key, or append a fresh entry with count 1 (Python dicts
preserve first-seen insertion order). -/
def bump : List (Str × Nat) → Str → List (Str × Nat)
  | [], k => [(k, 1)]
  | (k', c) :: rest, k => if k' = k then (k', c + 1) :: rest else (k', c) :: bump rest k

/-- Total count recorded in the aggregation dictionary. -/
def sumCounts : List (Str × Nat) → Nat
  | [] => 0
  | kc :: rest => kc.2 + sumCounts rest

/-- The aggregation key `"{service} {method} {url}"` built by
`stat_api_calls` (service from the original url, url normalized). -/
def mkKey (m u : Str) : Str :=
  identify_service u ++ (' ' :: (m ++ (' ' :: normalize_url u)))

/-- The record-processing loop of `LogAnalyzer.stat_api_calls` over the
lines of the record stream, carrying the aggregation dictionary: each line
is `'\n'`-stripped and unpacked by `_parse_line`; records outside the
strict window or whose url contains `content/corpus` are skipped; the rest
are counted under `mkKey`. -/
def statAux (start end_ : Nat) (stats : List (Str × Nat)) : List Str → Except AErr (List (Str × Nat))
  | [] => .ok stats
  | l :: ls =>
    match parseLine3 (pythonStrip ['\n'] l) with
    | .error er => .error er
    | .ok (t, m, u) =>
      statAux start end_
        (if (decide (start < t) && decide (t < end_)) && !(strIn "content/corpus".toList u)
         then bump stats (mkKey m u) else stats) ls

/-- `LogAnalyzer.stat_api_calls` aggregation over a list of raw stream
lines. -/
def statLines (start end_ : Nat) (lines : List Str) : Except AErr (List (Str × Nat)) :=
  statAux start end_ [] lines

/-- `LogAnalyzer.stat_api_calls` applied to the record stream produced by
the parser (iterated with Python file line semantics). -/
def stat_api_calls (start end_ : Nat) (stream : Str) : Except AErr (List (Str × Nat)) :=
  statLines start end_ (pyReadLines stream)

/-- One CSV data row: the aggregation key is split on spaces back into
service, method and url (`split[0], split[1], split[2]` in the source) and
the count is rendered in decimal. -/
def csvRow (kc : Str × Nat) : List Str :=
  [(splitOn ' ' kc.1).getD 0 [], (splitOn ' ' kc.1).getD 1 [], (splitOn ' ' kc.1).getD 2 [], natToStr kc.2]

/-- The CSV report written by `stat_api_calls`: the header row
`service,method,url,count` followed by one row per aggregation key in
dictionary (first-seen) order. -/
def write_csv (stats : List (Str × Nat)) : List (List Str) :=
  ["service".toList, "method".toList, "url".toList, "count".toList] :: stats.map csvRow

/-- Modelled from the spec: the counting condition of claim C3 — a stream
line is counted exactly when it unpacks into a record whose timestamp `t`
satisfies `start < t < end` with strict inequality on both sides and whose
url does not contain the substring `content/corpus`. -/
def countedSpec (start end_ : Nat) (l : Str) : Bool :=
  match parseLine3 (pythonStrip ['\n'] l) with
  | .ok (t, _, u) => (decide (start < t) && decide (t < end_)) && !(strIn "content/corpus".toList u)
  | .error _ => false

theorem splitOn_cons_sep (sep : Char) (ys : Str) : splitOn sep (sep :: ys) = [] :: splitOn sep ys := by
  simp [splitOn]

theorem splitOn_append (sep : Char) (xs ys : Str) (h : ∀ c ∈ xs, (c == sep) = false)
    (hd : Str) (tl : List Str) (hys : splitOn sep ys = hd :: tl) :
    splitOn sep (xs ++ ys) = (xs ++ hd) :: tl := by
  induction xs with
  | nil => simpa using hys
  | cons c cs ih =>
    have hc : (c == sep) = false := h c (by simp)
    have ih' := ih (fun d hd' => h d (by simp [hd']))
    simp only [List.cons_append, splitOn, hc, Bool.false_eq_true, if_false, List.append_eq, ih']

theorem splitOn_no_sep (sep : Char) (xs : Str) (h : ∀ c ∈ xs, (c == sep) = false) :
    splitOn sep xs = [xs] := by
  simpa using splitOn_append sep xs [] h [] [] rfl

theorem dropWhile_all_false (p : Char → Bool) : ∀ (l : Str), (∀ c ∈ l, p c = false) → l.dropWhile p = l
  | [], _ => rfl
  | c :: cs, h => by
    have hc : p c = false := h c (by simp)
    simp only [List.dropWhile_cons, hc, Bool.false_eq_true, if_false]

theorem contains_single_eq_false (x c : Char) (h : c ≠ x) : ([x] : Str).contains c = false := by
  simp [h]

theorem strip_no_chars (chars l : Str) (h : ∀ c ∈ l, chars.contains c = false) :
    pythonStrip chars l = l := by
  unfold pythonStrip pyLstrip pyRstrip
  rw [dropWhile_all_false _ l h,
      dropWhile_all_false _ l.reverse (fun c hc => h c (List.mem_reverse.mp hc)),
      List.reverse_reverse]

theorem strip_trailing_newline (A : Str) (h : '\n' ∉ A) :
    pythonStrip ['\n'] (A ++ ['\n']) = A := by
  cases A with
  | nil => rfl
  | cons a as =>
    have hmem : ∀ c ∈ a :: as, (['\n'] : Str).contains c = false := fun c hc =>
      contains_single_eq_false '\n' c (fun he => h (he ▸ hc))
    have ha : (['\n'] : Str).contains a = false := hmem a (by simp)
    have hnl : (['\n'] : Str).contains '\n' = true := by decide
    unfold pythonStrip pyLstrip pyRstrip
    simp only [List.cons_append, List.dropWhile_cons, ha, Bool.false_eq_true, if_false]
    rw [show ((a :: (as ++ ['\n'])).reverse = '\n' :: (a :: as).reverse) by simp]
    simp only [List.dropWhile_cons, hnl, if_true]
    rw [dropWhile_all_false _ ((a :: as).reverse) (fun c hc => hmem c (List.mem_reverse.mp hc)),
        List.reverse_reverse]

theorem seqApply_all_false : ∀ (rs : List (Str × Str)) (t : Str),
    rs.all (fun r => !(rmatch (compilePat r.1) t)) = true → seqApply rs t = t
  | [], _, _ => rfl
  | (p, tm) :: rs, t, h => by
    rw [List.all_cons, Bool.and_eq_true] at h
    have hp : rmatch (compilePat p) t = false := by
      have := h.1
      simpa using this
    simp only [seqApply, hp, Bool.false_eq_true, if_false]
    exact seqApply_all_false rs t h.2

theorem seq_eq_first : ∀ (rs : List (Str × Str)) (url : Str),
    noLaterMatch rs = true → seqApply rs url = firstApply rs url
  | [], _, _ => rfl
  | (p, tm) :: rs, url, h => by
    rw [show noLaterMatch ((p, tm) :: rs) = (rs.all (fun r => !(rmatch (compilePat r.1) tm)) && noLaterMatch rs) from rfl,
        Bool.and_eq_true] at h
    by_cases hm : rmatch (compilePat p) url
    · simp only [seqApply, firstApply, hm, if_true]
      exact seqApply_all_false rs tm h.1
    · simp only [seqApply, firstApply, hm, Bool.false_eq_true, if_false]
      exact seq_eq_first rs url h.2

theorem sumCounts_bump : ∀ (stats : List (Str × Nat)) (k : Str),
    sumCounts (bump stats k) = sumCounts stats + 1
  | [], _ => rfl
  | (k', c) :: rest, k => by
    by_cases h : k' = k
    · simp only [bump, h, if_true, sumCounts]
      omega
    · simp only [bump, h, if_false, sumCounts, sumCounts_bump rest k]
      omega

theorem bump_not_mem : ∀ (stats : List (Str × Nat)) (k : Str),
    (∀ q ∈ stats, q.1 ≠ k) → bump stats k = stats ++ [(k, 1)]
  | [], _, _ => rfl
  | (k', c) :: rest, k, h => by
    have hk : k' ≠ k := h (k', c) (by simp)
    simp only [bump, hk, if_false, List.cons_append, List.cons.injEq, true_and]
    exact bump_not_mem rest k (fun q hq => h q (by simp [hq]))

theorem bump_mem : ∀ (pre : List (Str × Nat)) (c : Nat) (post : List (Str × Nat)) (k : Str),
    (∀ q ∈ pre, q.1 ≠ k) → bump (pre ++ (k, c) :: post) k = pre ++ (k, c + 1) :: post
  | [], c, post, k, _ => by simp [bump]
  | (k', c') :: pre, c, post, k, h => by
    have hk : k' ≠ k := h (k', c') (by simp)
    simp only [List.cons_append, bump, hk, if_false, List.cons.injEq, true_and]
    exact bump_mem pre c post k (fun q hq => h q (by simp [hq]))

theorem statAux_sum : ∀ (lines : List Str) (start end_ : Nat) (stats stats' : List (Str × Nat)),
    statAux start end_ stats lines = .ok stats' →
    sumCounts stats' = sumCounts stats + lines.countP (countedSpec start end_)
  | [], _, _, stats, stats', h => by
    simp only [statAux] at h
    cases h
    simp
  | l :: ls, start, end_, stats, stats', h => by
    rw [List.countP_cons]
    cases hp : parseLine3 (pythonStrip ['\n'] l) with
    | error er =>
      rw [show statAux start end_ stats (l :: ls)
            = .error er by simp only [statAux, hp]] at h
      cases h
    | ok r =>
      obtain ⟨t, m, u⟩ := r
      rw [show statAux start end_ stats (l :: ls)
            = statAux start end_
                (if (decide (start < t) && decide (t < end_)) && !(strIn "content/corpus".toList u)
                 then bump stats (mkKey m u) else stats) ls
          by simp only [statAux, hp]] at h
      have hcl : countedSpec start end_ l
          = ((decide (start < t) && decide (t < end_)) && !(strIn "content/corpus".toList u)) := by
        simp only [countedSpec, hp]
      cases hc : ((decide (start < t) && decide (t < end_)) && !(strIn "content/corpus".toList u)) with
      | true =>
        rw [hc, if_pos rfl] at h
        rw [statAux_sum ls start end_ _ stats' h, sumCounts_bump, hcl, hc]
        simp
        omega
      | false =>
        rw [hc] at h
        simp only [Bool.false_eq_true, if_false] at h
        rw [statAux_sum ls start end_ _ stats' h, hcl, hc]
        simp only [Bool.false_eq_true, if_false]
        omega

theorem dlLoop_mono : ∀ (force : Bool) (pfx : Str) (l fs : List Str) (cnt ex : Nat) (x : Str),
    x ∈ fs → x ∈ (dlLoop force pfx l fs cnt ex).1
  | _, _, [], fs, _, _, x, hx => hx
  | force, pfx, k :: ks, fs, cnt, ex, x, hx => by
    by_cases hc : force = false ∧ keyName pfx k ∈ fs
    · simp only [dlLoop, if_pos hc]
      exact dlLoop_mono force pfx ks fs cnt (ex + 1) x hx
    · simp only [dlLoop, if_neg hc]
      refine dlLoop_mono force pfx ks _ (cnt + 1) ex x ?_
      by_cases hm : keyName pfx k ∈ fs
      · simpa [if_pos hm] using hx
      · simp only [if_neg hm]
        exact List.mem_append_left _ hx

theorem dlLoop_covers : ∀ (force : Bool) (pfx : Str) (l fs : List Str) (cnt ex : Nat) (k : Str),
    k ∈ l → keyName pfx k ∈ (dlLoop force pfx l fs cnt ex).1
  | force, pfx, k' :: ks, fs, cnt, ex, k, hk => by
    rcases List.mem_cons.mp hk with rfl | hk'
    · by_cases hc : force = false ∧ keyName pfx k ∈ fs
      · simp only [dlLoop, if_pos hc]
        exact dlLoop_mono force pfx ks fs cnt (ex + 1) _ hc.2
      · simp only [dlLoop, if_neg hc]
        refine dlLoop_mono force pfx ks _ (cnt + 1) ex _ ?_
        by_cases hm : keyName pfx k ∈ fs
        · simpa [if_pos hm] using hm
        · simp [if_neg hm]
    · by_cases hc : force = false ∧ keyName pfx k' ∈ fs
      · simp only [dlLoop, if_pos hc]
        exact dlLoop_covers force pfx ks fs cnt (ex + 1) k hk'
      · simp only [dlLoop, if_neg hc]
        exact dlLoop_covers force pfx ks _ (cnt + 1) ex k hk'

theorem dlLoop_all_skip : ∀ (pfx : Str) (l fs : List Str) (cnt ex : Nat),
    (∀ k ∈ l, keyName pfx k ∈ fs) → dlLoop false pfx l fs cnt ex = (fs, cnt, ex + l.length)
  | _, [], fs, cnt, ex, _ => rfl
  | pfx, k :: ks, fs, cnt, ex, h => by
    simp only [dlLoop]
    split
    · rw [dlLoop_all_skip pfx ks fs cnt (ex + 1) (fun k' hk' => h k' (by simp [hk'])),
          show ex + 1 + ks.length = ex + (k :: ks).length from by
            simp only [List.length_cons]
            omega]
    · next h' => exact absurd ⟨by trivial, h k (by simp)⟩ h'

theorem filterKeysE_all_out : ∀ (keys : List Str) (start end_ : Nat) (pfx : Str),
    (∀ k ∈ keys, ∀ t, keyTs pfx k = some t → ¬(start < t ∧ t < end_)) →
    (∀ k ∈ keys, keyTs pfx k ≠ none) →
    filterKeysE start end_ pfx keys = .ok []
  | [], _, _, _, _, _ => rfl
  | k :: ks, start, end_, pfx, hout, hsome => by
    cases ht : keyTs pfx k with
    | none => exact absurd ht (hsome k (by simp))
    | some t =>
      have hrec := filterKeysE_all_out ks start end_ pfx
        (fun k' hk' => hout k' (by simp [hk'])) (fun k' hk' => hsome k' (by simp [hk']))
      have hw : (decide (start < t) && decide (t < end_)) = false := by
        have hno := hout k (by simp) t ht
        by_cases h1 : start < t
        · by_cases h2 : t < end_
          · exact absurd (And.intro h1 h2) hno
          · simp [h2]
        · simp [h1]
      simp only [filterKeysE, ht, hrec, hw, Bool.false_eq_true, if_false]

/-- C1: for every URL, `_identify_service` evaluates the fixed ordered
substring rules `api/`→jarvis, `graph/v`→pepper, `recommendation/v`→vision,
`search`→pym, `titan`→titan with last-match-wins (overwrite) semantics,
returning the empty string when no rule matches; in particular every URL
containing both `search` and `titan` classifies as `titan`. -/
theorem service_last_match_wins :
    (∀ url : Str, identify_service url = lastMatchService url) ∧
    (∀ url : Str, strIn "search".toList url = true → strIn "titan".toList url = true →
      identify_service url = "titan".toList) := by
  constructor
  · intro url
    rfl
  · intro url _ h2
    unfold identify_service
    rw [if_pos h2]

/-- Witness for C1 at the concrete URL `api/search/titan`, which contains
both `search` and `titan` and classifies as `titan`. -/
theorem service_last_match_wins_witness :
    strIn "search".toList "api/search/titan".toList = true ∧
    strIn "titan".toList "api/search/titan".toList = true ∧
    identify_service "api/search/titan".toList = "titan".toList :=
  ⟨by decide, by decide,
   service_last_match_wins.2 "api/search/titan".toList (by decide) (by decide)⟩

/-- C2 counterexample: the claim says normalization strips a SINGLE
trailing `/`, but the source (`url.rstrip('/')`) strips ALL trailing
slashes: on `https://api.soocii.me:443/titan//` the code yields
`...:443/titan` while the claim's normalization yields `...:443/titan/`. -/
theorem normalize_single_slash_counterexample :
    normalize_url "https://api.soocii.me:443/titan//".toList
        = "https://api.soocii.me:443/titan".toList ∧
    normalize_url_claim "https://api.soocii.me:443/titan//".toList
        = "https://api.soocii.me:443/titan/".toList ∧
    normalize_url "https://api.soocii.me:443/titan//".toList
        ≠ normalize_url_claim "https://api.soocii.me:443/titan//".toList :=
  ⟨by decide, by decide, by decide⟩

/-- C2 (amended): normalization strips everything from the first `?`
onward, then strips ALL trailing `/` characters, then behaves exactly like
applying the canonical replacement of the FIRST matching rule of the
ordered endpoint-shape table and stopping (the source's no-break overwrite
loop is extensionally first-match because no canonical replacement matches
any later pattern); if no rule matches, the URL is returned unchanged after
the query/slash stripping.  In particular the claim's concrete example
normalizes to `https://api.soocii.me:443/graph/v1.2/<id>/achievements`. -/
theorem normalize_first_match_amended :
    (∀ url : Str, normalize_url url = normalize_url_first url) ∧
    normalize_url "https://api.soocii.me:443/graph/v1.2/123/achievements?x=1".toList
      = "https://api.soocii.me:443/graph/v1.2/<id>/achievements".toList := by
  constructor
  · intro url
    unfold normalize_url normalize_url_first
    exact seq_eq_first normalize_handler _ (by decide)
  · decide

/-- C3: `stat_api_calls` counts a record if and only if its timestamp `t`
satisfies `start < t < end` strictly on both sides (so a timestamp equal to
either bound is never counted) and its URL does not contain
`content/corpus`; every other record contributes nothing (see
`countedSpec`: the total of all aggregated counts equals the number of
stream lines satisfying exactly that condition). -/
theorem stat_counts_iff_window_and_corpus :
    ∀ (start end_ : Nat) (lines : List Str) (stats : List (Str × Nat)),
      statLines start end_ lines = .ok stats →
      sumCounts stats = lines.countP (countedSpec start end_) := by
  intro s e lines stats h
  have hsum := statAux_sum lines s e [] stats h
  simpa [sumCounts] using hsum

/-- Witness for C3 on a three-line stream: one record strictly inside the
window (counted), one exactly at `start` (excluded by strictness), one
inside the window but with a `content/corpus` URL (excluded). -/
theorem stat_counts_iff_window_and_corpus_witness :
    sumCounts [("titan GET titan/a".toList, 1)] =
      List.countP (countedSpec 20180321010203000000 20180321010203000010)
        ["2018-03-21T01:02:03.000005Z GET titan/a".toList,
         "2018-03-21T01:02:03.000000Z GET titan/a".toList,
         "2018-03-21T01:02:03.000005Z GET titan/content/corpus/x".toList] :=
  stat_counts_iff_window_and_corpus 20180321010203000000 20180321010203000010
    ["2018-03-21T01:02:03.000005Z GET titan/a".toList,
     "2018-03-21T01:02:03.000000Z GET titan/a".toList,
     "2018-03-21T01:02:03.000005Z GET titan/content/corpus/x".toList]
    [("titan GET titan/a".toList, 1)] (by rfl)

/-- C4: a line whose single-space split has fewer than 14 fields makes the
per-line parser fail with the spec's `MalformedLineError` (an uncaught
`IndexError` in the source), and `parseStream` aborts at that line no
matter what lines follow — nothing is skipped, nothing after it is
parsed. -/
theorem malformed_line_aborts :
    ∀ line : Str, (splitOn ' ' line).length < 14 →
      parseLogLine line = .error .malformedLine ∧
      ∀ rest : List Str, parseStream (line :: rest) = .error .malformedLine := by
  intro line h
  have h1 : parseLogLine line = .error .malformedLine := by
    unfold parseLogLine
    rw [if_neg (by omega)]
  exact ⟨h1, fun rest => by simp only [parseStream, h1]⟩

/-- Witness for C4: the two-field line `a b` aborts a parse even when a
well-formed line follows it. -/
theorem malformed_line_aborts_witness :
    (splitOn ' ' "a b".toList).length < 14 ∧
    parseStream ["a b".toList,
      "x 2018-03-21T01:02:03.000000Z x x x x x x x x x x \"GET\" /a/b x".toList]
      = .error .malformedLine :=
  ⟨by decide, (malformed_line_aborts "a b".toList (by decide)).2 _⟩

/-- C5 (code-bug evidence): the claim and spec say the local file name is
derived by removing the listing PREFIX from the key, but the source's
`key.strip(prefix)` treats the prefix as a character SET and strips those
characters from both ends.  At prefix `ab.` and key `ab.ba_x` the code
derives `_x`, while prefix removal (dropping `"ab."`.length characters)
gives `ba_x`. -/
theorem keyName_charset_strip_eval :
    keyName "ab.".toList "ab.ba_x".toList = "_x".toList ∧
    "ab.ba_x".toList.drop "ab.".toList.length = "ba_x".toList ∧
    keyName "ab.".toList "ab.ba_x".toList ≠ "ba_x".toList :=
  ⟨by decide, by decide, by decide⟩

/-- C6 counterexample: the claim's concrete line has ELEVEN filler fields
between the timestamp and the quoted method, i.e. 16 space-delimited fields
in total, so index 12 holds `x` and index 13 holds `"GET"`; the parser
therefore emits `2018-03-21T01:02:03.000000Z x "GET"`, not the claimed
`2018-03-21T01:02:03.000000Z GET /a/b`. -/
theorem parse_claim_line_counterexample :
    parseLogLine "x 2018-03-21T01:02:03.000000Z x x x x x x x x x x x \"GET\" /a/b x".toList
        = .ok ("2018-03-21T01:02:03.000000Z x \"GET\"".toList ++ ['\n']) ∧
    ("2018-03-21T01:02:03.000000Z x \"GET\"".toList ++ ['\n'])
        ≠ ("2018-03-21T01:02:03.000000Z GET /a/b".toList ++ ['\n']) :=
  ⟨by rfl, by decide⟩

/-- C6 (amended): with ONE fewer filler field (ten `x` fields, so the line
has 15 fields and the quoted method sits at index 12), the parser emits the
condensed record `2018-03-21T01:02:03.000000Z GET /a/b` as the claim
states; and in general every line whose single-space split has at least 14
fields yields the record built from the timestamp at index 1, the method at
index 12 with surrounding quote characters stripped, and the URL at
index 13. -/
theorem parse_line_extraction :
    parseLogLine "x 2018-03-21T01:02:03.000000Z x x x x x x x x x x \"GET\" /a/b x".toList
        = .ok ("2018-03-21T01:02:03.000000Z GET /a/b".toList ++ ['\n']) ∧
    (∀ line : Str, 13 < (splitOn ' ' line).length →
      parseLogLine line
        = .ok ((splitOn ' ' line).getD 1 [] ++
            (' ' :: (pythonStrip ['"'] ((splitOn ' ' line).getD 12 []) ++
              (' ' :: ((splitOn ' ' line).getD 13 [] ++ ['\n'])))))) := by
  constructor
  · rfl
  · intro line h
    unfold parseLogLine
    rw [if_pos h]

/-- Witness for C6's general extraction rule at a concrete 14-field
line. -/
theorem parse_line_extraction_witness :
    13 < (splitOn ' ' "a b c d e f g h i j k l m n".toList).length ∧
    parseLogLine "a b c d e f g h i j k l m n".toList
      = .ok ((splitOn ' ' "a b c d e f g h i j k l m n".toList).getD 1 [] ++
          (' ' :: (pythonStrip ['"'] ((splitOn ' ' "a b c d e f g h i j k l m n".toList).getD 12 []) ++
            (' ' :: ((splitOn ' ' "a b c d e f g h i j k l m n".toList).getD 13 [] ++ ['\n']))))) :=
  ⟨by decide, parse_line_extraction.2 "a b c d e f g h i j k l m n".toList (by decide)⟩

/-- C7: an empty remote listing fails with the spec's `NoObjectsFoundError`;
a non-empty listing in which every key's embedded timestamp parses but none
lies strictly inside the window fails with the distinct
`NoObjectsInRangeError`; both are `Except.error` results, i.e. fatal. -/
theorem download_errors_distinct :
    (∀ (start end_ : Nat) (force : Bool) (pfx : Str) (fs : List Str),
        download_one_pfx start end_ force pfx [] fs = .error .noObjectsFound) ∧
    (∀ (start end_ : Nat) (force : Bool) (pfx : Str) (keys fs : List Str),
        keys ≠ [] →
        (∀ k ∈ keys, keyTs pfx k ≠ none) →
        (∀ k ∈ keys, ∀ t, keyTs pfx k = some t → ¬(start < t ∧ t < end_)) →
        download_one_pfx start end_ force pfx keys fs = .error .noObjectsInRange) ∧
    DlErr.noObjectsFound ≠ DlErr.noObjectsInRange := by
  refine ⟨fun _ _ _ _ _ => rfl, ?_, by decide⟩
  intro s e force p keys fs hne hsome hout
  cases keys with
  | nil => exact absurd rfl hne
  | cons k ks =>
    unfold download_one_pfx
    rw [filterKeysE_all_out (k :: ks) s e p hout hsome]
    rfl

/-- Witness for C7's in-range failure: one key with a parsable embedded
timestamp and an empty window. -/
theorem download_errors_distinct_witness :
    download_one_pfx 0 0 false "xy".toList ["xy_20180321T0105Z".toList] []
      = .error .noObjectsInRange :=
  download_errors_distinct.2.1 0 0 false "xy".toList ["xy_20180321T0105Z".toList] []
    (by simp)
    (by
      intro k hk
      rw [List.mem_singleton] at hk
      subst hk
      decide)
    (by
      intro k hk t ht
      omega)

/-- C8: re-running the downloader on the same listing with
`force_download` off, starting from the file set produced by a successful
first run, fetches zero objects: every surviving key's derived local file
already exists, so the file set is unchanged and every key is counted as
skipped. -/
theorem download_idempotent :
    ∀ (start end_ : Nat) (pfx : Str) (keys fs fs' : List Str) (cnt ex : Nat),
      download_one_pfx start end_ false pfx keys fs = .ok (fs', cnt, ex) →
      ∃ ex2, download_one_pfx start end_ false pfx keys fs' = .ok (fs', 0, ex2) := by
  intro s e p keys fs fs' cnt ex h
  cases keys with
  | nil => simp [download_one_pfx] at h
  | cons k ks =>
    simp only [download_one_pfx, List.isEmpty_cons, Bool.false_eq_true, if_false] at h ⊢
    cases hf : filterKeysE s e p (k :: ks) with
    | error er =>
      rw [hf] at h
      exact Except.noConfusion h
    | ok valid =>
      simp only [hf] at h ⊢
      cases valid with
      | nil => simp at h
      | cons v vs =>
        simp only [List.isEmpty_cons, Bool.false_eq_true, if_false, Except.ok.injEq] at h ⊢
        have hcov : ∀ x ∈ v :: vs, keyName p x ∈ fs' := by
          intro x hx
          have hm := dlLoop_covers false p (v :: vs) fs 0 0 x hx
          rw [h] at hm
          exact hm
        rw [dlLoop_all_skip p (v :: vs) fs' 0 0 hcov]
        exact ⟨0 + (v :: vs).length, rfl⟩

/-- Witness for C8: a successful first run from an empty staging folder,
then the second run fetches zero objects and leaves the folder
unchanged. -/
theorem download_idempotent_witness :
    ∃ ex2, download_one_pfx 20180321010459999999 20180321010500000001 false "xy".toList
        ["xy_20180321T0105Z".toList] ["_20180321T0105Z".toList]
      = .ok (["_20180321T0105Z".toList], 0, ex2) :=
  download_idempotent 20180321010459999999 20180321010500000001 "xy".toList
    ["xy_20180321T0105Z".toList] [] ["_20180321T0105Z".toList] 1 0 (by rfl)

/-- C9: the aggregation creates an entry at the end of the dictionary on
first observation of a key and increments it in place (preserving order) on
later observations; the CSV consists of the header row
`service,method,url,count` followed by exactly one row per key in
first-seen order; concretely, three in-window records with identical
service/method and URLs A, A, B produce the row for A with count 2 before
the row for B with count 1. -/
theorem aggregation_first_seen_csv :
    (∀ (stats : List (Str × Nat)) (k : Str), (∀ q ∈ stats, q.1 ≠ k) →
        bump stats k = stats ++ [(k, 1)]) ∧
    (∀ (pre : List (Str × Nat)) (c : Nat) (post : List (Str × Nat)) (k : Str),
        (∀ q ∈ pre, q.1 ≠ k) →
        bump (pre ++ (k, c) :: post) k = pre ++ (k, c + 1) :: post) ∧
    (∀ stats : List (Str × Nat), write_csv stats
        = ["service".toList, "method".toList, "url".toList, "count".toList] :: stats.map csvRow) ∧
    statLines 20180321010202999999 20180321010203000001
        ["2018-03-21T01:02:03.000000Z GET titan/a".toList,
         "2018-03-21T01:02:03.000000Z GET titan/a".toList,
         "2018-03-21T01:02:03.000000Z GET titan/b".toList]
      = .ok [("titan GET titan/a".toList, 2), ("titan GET titan/b".toList, 1)] ∧
    write_csv [("titan GET titan/a".toList, 2), ("titan GET titan/b".toList, 1)]
      = [["service".toList, "method".toList, "url".toList, "count".toList],
         ["titan".toList, "GET".toList, "titan/a".toList, "2".toList],
         ["titan".toList, "GET".toList, "titan/b".toList, "1".toList]] :=
  ⟨bump_not_mem, bump_mem, fun _ => rfl, by rfl, by decide⟩

/-- Witness for C9's first-observation rule: bumping a key absent from the
dictionary appends a fresh entry with count 1. -/
theorem aggregation_first_seen_csv_witness :
    bump [("a".toList, 3)] "k".toList = [("a".toList, 3), ("k".toList, 1)] :=
  aggregation_first_seen_csv.1 [("a".toList, 3)] "k".toList (by decide)

/-- C10: a newline-terminated log line with exactly 14 space-delimited
fields is NOT malformed under the fewer-than-14-fields rule, yet the URL
extracted at index 13 is the final field and retains the trailing newline,
so the parser writes its condensed record followed by an extra empty line
into the record stream; the analyzer's three-field split of that empty line
then fails to unpack, aborting the run (for every window).  The fields are
named explicitly: `d` is the timestamp field (index 1), `mth` the
quote-stripped method field (index 12), and `u ++ "\n"` the final field
(index 13). -/
theorem fourteen_field_line_breaks_analyzer :
    ∀ (start end_ : Nat) (line d mth u : Str) (t : Nat),
      (splitOn ' ' line).length = 14 →
      (splitOn ' ' line).getD 1 [] = d →
      pythonStrip ['"'] ((splitOn ' ' line).getD 12 []) = mth →
      (splitOn ' ' line).getD 13 [] = u ++ ['\n'] →
      parseRecordTs d = some t →
      '\n' ∉ d → ' ' ∉ d → '\n' ∉ mth → ' ' ∉ mth → '\n' ∉ u → ' ' ∉ u →
      parseLogLine line = .ok ((d ++ (' ' :: (mth ++ (' ' :: u)))) ++ ['\n', '\n']) ∧
      stat_api_calls start end_ ((d ++ (' ' :: (mth ++ (' ' :: u)))) ++ ['\n', '\n'])
        = .error .unpackError := by
  intro s e line d mth u t h14 hd hm h13 ht hdn hds hmn hms hun hus
  have hA : '\n' ∉ d ++ (' ' :: (mth ++ (' ' :: u))) := by
    intro hmem
    rcases List.mem_append.mp hmem with h | h
    · exact hdn h
    · rcases List.mem_cons.mp h with h' | h'
      · exact absurd h' (by decide)
      · rcases List.mem_append.mp h' with h2 | h2
        · exact hmn h2
        · rcases List.mem_cons.mp h2 with h3 | h3
          · exact absurd h3 (by decide)
          · exact hun h3
  have hpl : parseLogLine line = .ok ((d ++ (' ' :: (mth ++ (' ' :: u)))) ++ ['\n', '\n']) := by
    unfold parseLogLine
    rw [if_pos (by omega : 13 < (splitOn ' ' line).length)]
    rw [hd, hm, h13]
    simp [List.append_assoc]
  have hsplit : splitOn '\n' ((d ++ (' ' :: (mth ++ (' ' :: u)))) ++ ['\n', '\n'])
      = ((d ++ (' ' :: (mth ++ (' ' :: u)))) ++ []) :: [[], []] :=
    splitOn_append '\n' _ ['\n', '\n']
      (fun c hc => beq_eq_false_iff_ne.mpr (fun he => hA (he ▸ hc))) [] [[], []] (by rfl)
  have hsplit2 : splitOn '\n' ((d ++ (' ' :: (mth ++ (' ' :: u)))) ++ ['\n', '\n'])
      = (d ++ (' ' :: (mth ++ (' ' :: u)))) :: [[], []] := by
    rw [hsplit]
    simp
  have hlines : pyReadLines ((d ++ (' ' :: (mth ++ (' ' :: u)))) ++ ['\n', '\n'])
      = [(d ++ (' ' :: (mth ++ (' ' :: u)))) ++ ['\n'], ['\n']] := by
    unfold pyReadLines
    rw [hsplit2]
    rfl
  have hstrip : pythonStrip ['\n'] ((d ++ (' ' :: (mth ++ (' ' :: u)))) ++ ['\n'])
      = d ++ (' ' :: (mth ++ (' ' :: u))) := strip_trailing_newline _ hA
  have hsp3 : splitOn ' ' (d ++ (' ' :: (mth ++ (' ' :: u)))) = [d, mth, u] := by
    have hu : splitOn ' ' u = [u] :=
      splitOn_no_sep ' ' u (fun c hc => beq_eq_false_iff_ne.mpr (fun he => hus (he ▸ hc)))
    have h2 : splitOn ' ' (' ' :: u) = [] :: [u] := by
      rw [splitOn_cons_sep, hu]
    have h3 : splitOn ' ' (mth ++ (' ' :: u)) = (mth ++ []) :: [u] :=
      splitOn_append ' ' mth (' ' :: u)
        (fun c hc => beq_eq_false_iff_ne.mpr (fun he => hms (he ▸ hc))) [] [u] h2
    have h4 : splitOn ' ' (' ' :: (mth ++ (' ' :: u))) = [] :: ((mth ++ []) :: [u]) := by
      rw [splitOn_cons_sep, h3]
    have h5 := splitOn_append ' ' d (' ' :: (mth ++ (' ' :: u)))
      (fun c hc => beq_eq_false_iff_ne.mpr (fun he => hds (he ▸ hc))) [] ((mth ++ []) :: [u]) h4
    rw [h5]
    simp
  have hp3 : parseLine3 (d ++ (' ' :: (mth ++ (' ' :: u)))) = .ok (t, mth, u) := by
    unfold parseLine3
    rw [hsp3]
    change (match parseRecordTs d with
      | some t2 => (Except.ok (t2, mth, u) : Except AErr (Nat × Str × Str))
      | none => .error .timestampFormatError) = .ok (t, mth, u)
    rw [ht]
  refine ⟨hpl, ?_⟩
  unfold stat_api_calls
  rw [hlines]
  unfold statLines
  simp only [statAux, hstrip, hp3]
  rfl

/-- Witness for C10 at the concrete newline-terminated 14-field line
`x 2018-03-21T01:02:03.000000Z x x x x x x x x x x "GET" /a/b\n`: the
parser emits a record ending in two newlines and the analyzer aborts with
the unpack error. -/
theorem fourteen_field_line_breaks_analyzer_witness :
    parseLogLine "x 2018-03-21T01:02:03.000000Z x x x x x x x x x x \"GET\" /a/b\n".toList
      = .ok (("2018-03-21T01:02:03.000000Z".toList ++
          (' ' :: ("GET".toList ++ (' ' :: "/a/b".toList)))) ++ ['\n', '\n']) ∧
    stat_api_calls 0 0 (("2018-03-21T01:02:03.000000Z".toList ++
          (' ' :: ("GET".toList ++ (' ' :: "/a/b".toList)))) ++ ['\n', '\n'])
      = .error .unpackError :=
  fourteen_field_line_breaks_analyzer 0 0
    "x 2018-03-21T01:02:03.000000Z x x x x x x x x x x \"GET\" /a/b\n".toList
    "2018-03-21T01:02:03.000000Z".toList "GET".toList "/a/b".toList
    20180321010203000000
    (by decide) (by decide) (by decide) (by decide) (by rfl)
    (by decide) (by decide) (by decide) (by decide) (by decide) (by decide)
